import Mathlib

/-!
Shallow embedding of the `rutcl` crate (Chilean RUT validation library),
translated from `crates/rutcl/src/lib.rs`.  Strings are modelled as
`List Char`; the machine integer `u32` (`Num`) is modelled as `Nat`, with
overflow made explicit exactly where the Rust code can overflow (the
`str::parse::<u32>` call and the `as u32` truncation in `Rut::random`).
All definitions are executable and mirror the Rust source construct by
construct.
-/

deriving instance DecidableEq for Except

namespace Rutcl

/-- Rust's `ParseIntError` kinds that `u32::from_str` can produce. -/
inductive ParseIntError where
  | Empty
  | InvalidDigit
  | PosOverflow
  deriving DecidableEq, Repr

/-- The crate's `Error` enum (`lib.rs` lines 25-39).  The
`InvalidVerificationDigit` constructor carries the `have` and `want`
characters in that order; `VerificationDigitOutOfBounds` carries the
offending value rendered as a string (list of characters). -/
inductive Error where
  | InvalidVerificationDigit : Char → Char → Error
  | VerificationDigitOutOfBounds : List Char → Error
  | InvalidFormat
  | NaN : ParseIntError → Error
  | OutOfRange
  | EmptyString
  deriving DecidableEq, Repr

/-- `const MAX_NUM: u32 = 99_999_999` -/
def MAX_NUM : Nat := 99999999

/-- `const MIN_NUM: u32 = 1_000_000` -/
def MIN_NUM : Nat := 1000000

/-- `const FACTOR: [u32; 6] = [2, 3, 4, 5, 6, 7]` -/
def FACTOR : List Nat := [2, 3, 4, 5, 6, 7]

/-- `const SYMBOLS: u32 = 11` -/
def SYMBOLS : Nat := 11

/-- `u32::MAX` -/
def U32_MAX : Nat := 4294967295

/-- The `VerificationDigit` enum (`lib.rs` lines 70-83). -/
inductive VerificationDigit where
  | Zero
  | One
  | Two
  | Three
  | Four
  | Five
  | Six
  | Seven
  | Eight
  | Nine
  | K
  deriving DecidableEq, Repr

/-- Fuelled digit extraction.  `decDigitsRevGo fuel n` is, for `n ≤ fuel`,
the list of the base-10 digits of `n`, least significant first — i.e. what
`n.to_string().chars().rev().map(|c| c.to_digit(10))` produces in the
source.  The fuel only serves structural termination; it is set to `n`
itself at the call site and never runs out. -/
def decDigitsRevGo : Nat → Nat → List Nat
  | 0, n => [n % 10]
  | fuel + 1, n => if n < 10 then [n] else n % 10 :: decDigitsRevGo fuel (n / 10)

/-- Base-10 digits of `num`, least significant first (the reversed decimal
rendering used by `VerificationDigit::new`). -/
def decDigitsRev (num : Nat) : List Nat := decDigitsRevGo num num

/-- The weighted-sum loop of `VerificationDigit::new` (`lib.rs` lines
117-125): walk the reversed digits, multiply each by `FACTOR[factor]`, and
advance `factor = (factor + 1) % 6`. -/
def weightedSumAux : List Nat → Nat → Nat → Nat
  | [], _, sum => sum
  | d :: ds, factor, sum => weightedSumAux ds ((factor + 1) % 6) (sum + d * FACTOR.getD factor 0)

/-- `VerificationDigit::from_u32` (`lib.rs` lines 135-150). -/
def VerificationDigit.from_u32 (value : Nat) : Except Error VerificationDigit :=
  if value = 1 then .ok .One
  else if value = 2 then .ok .Two
  else if value = 3 then .ok .Three
  else if value = 4 then .ok .Four
  else if value = 5 then .ok .Five
  else if value = 6 then .ok .Six
  else if value = 7 then .ok .Seven
  else if value = 8 then .ok .Eight
  else if value = 9 then .ok .Nine
  else if value = 10 then .ok .K
  else if value = 11 then .ok .Zero
  else .error (.VerificationDigitOutOfBounds ((decDigitsRev value).reverse.map
    (fun d => Char.ofNat (48 + d))))

/-- `VerificationDigit::new` (`lib.rs` lines 110-133): reversed decimal
digits, weighted sum, then `whole = sum / 11`, `base = sum - 11 * whole`,
`digit = 11 - base`, mapped through `from_u32`.  All the `u32` arithmetic
here is overflow-free (the sum is at most `9 * 7 * 10` for a `u32` body),
so `Nat` arithmetic is faithful. -/
def VerificationDigit.new (num : Nat) : Except Error VerificationDigit :=
  let digits := decDigitsRev num
  let sum := weightedSumAux digits 0 0
  let whole := sum / SYMBOLS
  let base := sum - SYMBOLS * whole
  let digit := SYMBOLS - base
  VerificationDigit.from_u32 digit

/-- `VerificationDigit::to_u32` (`lib.rs` lines 152-166). -/
def VerificationDigit.to_u32 : VerificationDigit → Nat
  | .Zero => 0
  | .One => 1
  | .Two => 2
  | .Three => 3
  | .Four => 4
  | .Five => 5
  | .Six => 6
  | .Seven => 7
  | .Eight => 8
  | .Nine => 9
  | .K => 10

/-- `TryFrom<char> for VerificationDigit` (`lib.rs` lines 169-188).  The
Rust `match` on character literals is a chain of equality tests; the error
carries `value.to_string()`, i.e. the one-character string `[value]`. -/
def VerificationDigit.tryFromChar (value : Char) : Except Error VerificationDigit :=
  if value = '0' then .ok .Zero
  else if value = '1' then .ok .One
  else if value = '2' then .ok .Two
  else if value = '3' then .ok .Three
  else if value = '4' then .ok .Four
  else if value = '5' then .ok .Five
  else if value = '6' then .ok .Six
  else if value = '7' then .ok .Seven
  else if value = '8' then .ok .Eight
  else if value = '9' then .ok .Nine
  else if value = 'K' ∨ value = 'k' then .ok .K
  else .error (.VerificationDigitOutOfBounds [value])

/-- `From<VerificationDigit> for char` (`lib.rs` lines 190-206). -/
def VerificationDigit.toChar : VerificationDigit → Char
  | .Zero => '0'
  | .One => '1'
  | .Two => '2'
  | .Three => '3'
  | .Four => '4'
  | .Five => '5'
  | .Six => '6'
  | .Seven => '7'
  | .Eight => '8'
  | .Nine => '9'
  | .K => 'K'

/-- The `Format` enum (`lib.rs` lines 251-261). -/
inductive Format where
  | Sans
  | Dash
  | Dots
  deriving DecidableEq, Repr

/-- The tuple struct `Rut(Num, VerificationDigit)` (`lib.rs` line 264),
with its two accessors `num` and `vd`. -/
structure Rut where
  num : Nat
  vd : VerificationDigit
  deriving DecidableEq, Repr

/-- `pub const MIN: Rut = Rut(MIN_NUM, VerificationDigit::Nine)` -/
def MIN : Rut := ⟨MIN_NUM, .Nine⟩

/-- `pub const MAX: Rut = Rut(MAX_NUM, VerificationDigit::Nine)` -/
def MAX : Rut := ⟨MAX_NUM, .Nine⟩

/-- The digit characters produced by Rust's `u32` `Display`: digit value
`d < 10` renders as the character of code `48 + d`.  Values `≥ 10` never
arise from `to_digit(10)`. -/
def digitToChar (d : Nat) : Char :=
  if d = 0 then '0'
  else if d = 1 then '1'
  else if d = 2 then '2'
  else if d = 3 then '3'
  else if d = 4 then '4'
  else if d = 5 then '5'
  else if d = 6 then '6'
  else if d = 7 then '7'
  else if d = 8 then '8'
  else if d = 9 then '9'
  else '*'

/-- `num.to_string()` for a `u32`: decimal digits, most significant
first. -/
def natToChars (n : Nat) : List Char := ((decDigitsRev n).map digitToChar).reverse

/-- The fuelled grouping loop of `Rut::format(Format::Dots)` (`lib.rs`
lines 317-330): repeatedly split off the rightmost (up to) three digits
and accumulate the chunks from the right, separated by dots.  As before,
the fuel only serves structural termination. -/
def dotsGroupGo : Nat → List Char → List Char
  | 0, chars => chars
  | fuel + 1, chars =>
    if chars.length ≤ 3 then chars
    else dotsGroupGo fuel (chars.take (chars.length - 3)) ++
      '.' :: chars.drop (chars.length - 3)

/-- Thousands-grouping of a digit string, as performed by the `Dots`
branch of `Rut::format`. -/
def dotsGroup (chars : List Char) : List Char := dotsGroupGo chars.length chars

/-- `Rut::format` (`lib.rs` lines 312-335). -/
def Rut.format (r : Rut) (fmt : Format) : List Char :=
  match fmt with
  | .Sans => natToChars r.num ++ [r.vd.toChar]
  | .Dash => natToChars r.num ++ '-' :: [r.vd.toChar]
  | .Dots => dotsGroup (natToChars r.num) ++ '-' :: [r.vd.toChar]

/-- `Rut::sans` (`lib.rs` lines 348-350): `input.replace(['.', '-'], "")`
deletes every occurrence of `'.'` and `'-'`, scanning left to right. -/
def Rut.sans : List Char → List Char
  | [] => []
  | c :: cs => if c = '.' ∨ c = '-' then Rut.sans cs else c :: Rut.sans cs

/-- Decimal digit of a character, `char::to_digit(10)`. -/
def toDigit10 (c : Char) : Option Nat :=
  if 48 ≤ c.toNat ∧ c.toNat ≤ 57 then some (c.toNat - 48) else none

/-- The digit-accumulation loop of Rust's `u32::from_str`: for each
character take its decimal value (else `InvalidDigit`) and fold it into
the accumulator with `checked_mul` / `checked_add` against `u32::MAX`
(else `PosOverflow`). -/
def parseU32Core : List Char → Nat → Except ParseIntError Nat
  | [], acc => .ok acc
  | c :: cs, acc =>
    match toDigit10 c with
    | none => .error .InvalidDigit
    | some d =>
      if U32_MAX < acc * 10 + d then .error .PosOverflow
      else parseU32Core cs (acc * 10 + d)

/-- Rust's `str::parse::<u32>`: empty input is `Empty`; a single leading
`'+'` is allowed (a bare `"+"` is `InvalidDigit`); then the digit loop. -/
def parseU32 (s : List Char) : Except ParseIntError Nat :=
  match s with
  | [] => .error .Empty
  | c :: cs =>
    if c = '+' then
      if cs = [] then .error .InvalidDigit else parseU32Core cs 0
    else parseU32Core (c :: cs) 0

/-- `TryFrom<Num> for Rut` (`lib.rs` lines 394-405): range check against
`RANGE = MIN_NUM..=MAX_NUM`, then compute the verification digit. -/
def Rut.tryFromNum (num : Nat) : Except Error Rut :=
  if MIN_NUM ≤ num ∧ num ≤ MAX_NUM then
    match VerificationDigit.new num with
    | .error e => .error e
    | .ok vd => .ok ⟨num, vd⟩
  else .error .OutOfRange

/-- `FromStr for Rut` (`lib.rs` lines 360-392): strip decoration, pop the
last character as the claimed verification digit (`Vec::pop` splits the
stripped characters into `dropLast` and `getLast?`), parse the remaining
characters as a `u32`, build the canonical `Rut` via `TryFrom<Num>`,
convert the claimed character, and compare.  The source binds the
stripped string once with `let`; it is pure, so writing it twice is the
same function. -/
def Rut.from_str (input : List Char) : Except Error Rut :=
  match (Rut.sans input).getLast? with
  | none => .error .EmptyString
  | some input_vd =>
    match parseU32 (Rut.sans input).dropLast with
    | .error e => .error (.NaN e)
    | .ok num =>
      match Rut.tryFromNum num with
      | .error e => .error e
      | .ok want =>
        match VerificationDigit.tryFromChar input_vd with
        | .error e => .error e
        | .ok claimed =>
          if want.vd = claimed then .ok want
          else .error (.InvalidVerificationDigit input_vd want.vd.toChar)

/-- `Rut::random` (`lib.rs` lines 284-290), with the one impure step made
an explicit argument: `hash` is the `u64` returned by
`hasher.finish()`, `as u32` truncates it modulo `2 ^ 32`, and the body is
that value modulo `MAX_NUM`. -/
def Rut.random (hash : Nat) : Except Error Rut :=
  let num := hash % 2 ^ 32 % MAX_NUM
  match VerificationDigit.new num with
  | .error e => .error e
  | .ok vd => .ok ⟨num, vd⟩

/-- `Rut::random_in_range` (`lib.rs` lines 293-298), with the one impure
step made an explicit argument: `num` is the value drawn by
`thread_rng().gen_range(range)`, which always lies inside the supplied
range.  No range validation is performed on `num`. -/
def Rut.random_in_range (num : Nat) : Except Error Rut :=
  match VerificationDigit.new num with
  | .error e => .error e
  | .ok vd => .ok ⟨num, vd⟩

/-!
Reference definitions written from the specification's wording (spec
§4.1), used only to compare `VerificationDigit::new` against the spec's
reference checksum.
-/

/-- `WEIGHTS = [2, 3, 4, 5, 6, 7]`, the spec's weight table. -/
def WEIGHTS : List Nat := [2, 3, 4, 5, 6, 7]

/-- Spec reference sum: walk the reversed digits left to right,
multiplying digit `i` (0-indexed) by `WEIGHTS[i mod 6]`; accumulate. -/
def specWeightedSum : List Nat → Nat → Nat
  | [], _ => 0
  | d :: ds, i => d * WEIGHTS.getD (i % 6) 0 + specWeightedSum ds (i + 1)

/-- Spec reference mapping: digit 1..9 to the corresponding decimal
symbol, 10 to K, 11 to 0; anything else is not a check digit. -/
def specMapDigit (v : Nat) : Option VerificationDigit :=
  if v = 1 then some .One
  else if v = 2 then some .Two
  else if v = 3 then some .Three
  else if v = 4 then some .Four
  else if v = 5 then some .Five
  else if v = 6 then some .Six
  else if v = 7 then some .Seven
  else if v = 8 then some .Eight
  else if v = 9 then some .Nine
  else if v = 10 then some .K
  else if v = 11 then some .Zero
  else none

/-- Spec reference check digit: write the body in base 10, reverse the
digits (`Nat.digits 10` lists them least significant first), take the
weighted sum, set `digit = 11 - (sum mod 11)`, and map it. -/
def specCheckDigit (num : Nat) : Option VerificationDigit :=
  specMapDigit (11 - specWeightedSum (Nat.digits 10 num) 0 % 11)

/-- The numeric value denoted by a digit list (most significant first),
folded the way `u32::from_str` folds characters. -/
def listVal (acc : Nat) : List Nat → Nat
  | [] => acc
  | d :: ds => listVal (acc * 10 + d) ds

/-! Helper lemmas about digit extraction. -/

theorem decDigitsRevGo_lt_ten (fuel n : Nat) : ∀ d ∈ decDigitsRevGo fuel n, d < 10 := by
  induction fuel generalizing n with
  | zero =>
    intro d hd
    simp only [decDigitsRevGo, List.mem_singleton] at hd
    omega
  | succ fuel ih =>
    intro d hd
    simp only [decDigitsRevGo] at hd
    by_cases h : n < 10
    · simp [h] at hd; omega
    · simp [h] at hd
      rcases hd with hd | hd
      · omega
      · exact ih (n / 10) d hd

theorem decDigitsRevGo_ne_nil (fuel n : Nat) : decDigitsRevGo fuel n ≠ [] := by
  cases fuel with
  | zero => simp [decDigitsRevGo]
  | succ fuel =>
    simp only [decDigitsRevGo]
    by_cases h : n < 10 <;> simp [h]

theorem decDigitsRevGo_eq_digits (fuel : Nat) :
    ∀ n, n ≤ fuel → 0 < n → decDigitsRevGo fuel n = Nat.digits 10 n := by
  induction fuel with
  | zero => intro n h1 h2; omega
  | succ fuel ih =>
    intro n h1 h2
    simp only [decDigitsRevGo]
    by_cases h : n < 10
    · rw [if_pos h, Nat.digits_def' (by norm_num : 1 < 10) h2]
      have h10 : n / 10 = 0 := Nat.div_eq_of_lt h
      have hm : n % 10 = n := Nat.mod_eq_of_lt h
      rw [h10, hm, Nat.digits_zero]
    · rw [if_neg h, Nat.digits_def' (by norm_num : 1 < 10) h2]
      have : n / 10 ≤ fuel := by omega
      rw [ih (n / 10) this (by omega)]

/-- The digits produced for `num` are its base-10 digits, least
significant first (with `0` rendered as the single digit `0`). -/
theorem decDigitsRev_eq_digits (n : Nat) (h : 0 < n) :
    decDigitsRev n = Nat.digits 10 n :=
  decDigitsRevGo_eq_digits n n le_rfl h

theorem decDigitsRev_lt_ten (n : Nat) : ∀ d ∈ decDigitsRev n, d < 10 :=
  decDigitsRevGo_lt_ten n n

theorem decDigitsRev_ne_nil (n : Nat) : decDigitsRev n ≠ [] :=
  decDigitsRevGo_ne_nil n n

/-! Relating the source's cyclic-factor loop to the spec's indexed sum. -/

theorem weightedSumAux_eq_spec (ds : List Nat) :
    ∀ i s, weightedSumAux ds (i % 6) s = s + specWeightedSum ds i := by
  induction ds with
  | nil => intro i s; simp [weightedSumAux, specWeightedSum]
  | cons d t ih =>
    intro i s
    simp only [weightedSumAux, specWeightedSum]
    have hmod : (i % 6 + 1) % 6 = (i + 1) % 6 := by omega
    rw [hmod, ih (i + 1)]
    have hfw : FACTOR.getD (i % 6) 0 = WEIGHTS.getD (i % 6) 0 := rfl
    rw [hfw]
    omega

/-! The intermediate `digit` always lies in `1..=11`, so `from_u32`
accepts it: the defensive error branch of the checksum is unreachable. -/

theorem from_u32_ok_of_bounds (v : Nat) (h1 : 1 ≤ v) (h2 : v ≤ 11) :
    ∃ d, VerificationDigit.from_u32 v = .ok d ∧ specMapDigit v = some d := by
  interval_cases v <;> exact ⟨_, rfl, rfl⟩

theorem new_ok (num : Nat) :
    ∃ vd, VerificationDigit.new num = .ok vd ∧
      specMapDigit (SYMBOLS - weightedSumAux (decDigitsRev num) 0 0 % SYMBOLS) = some vd := by
  simp only [VerificationDigit.new]
  set sum := weightedSumAux (decDigitsRev num) 0 0 with hsum
  have hdm := Nat.div_add_mod sum SYMBOLS
  have hbase : sum - SYMBOLS * (sum / SYMBOLS) = sum % SYMBOLS := by omega
  have hlt : sum % SYMBOLS < 11 := Nat.mod_lt _ (by norm_num [SYMBOLS])
  rw [hbase]
  obtain ⟨d, hd1, hd2⟩ := from_u32_ok_of_bounds (SYMBOLS - sum % SYMBOLS)
    (by simp only [SYMBOLS] at hlt ⊢; omega) (by simp only [SYMBOLS]; omega)
  exact ⟨d, hd1, hd2⟩

/-- C1 helper: the source checksum agrees with the spec's reference
checksum on every positive body. -/
theorem new_eq_specCheckDigit (num : Nat) (h : 0 < num) :
    ∃ vd, VerificationDigit.new num = .ok vd ∧ specCheckDigit num = some vd := by
  obtain ⟨vd, h1, h2⟩ := new_ok num
  refine ⟨vd, h1, ?_⟩
  unfold specCheckDigit
  have hsum : weightedSumAux (decDigitsRev num) 0 0 = specWeightedSum (Nat.digits 10 num) 0 := by
    rw [decDigitsRev_eq_digits num h]
    have := weightedSumAux_eq_spec (Nat.digits 10 num) 0 0
    simpa using this
  rw [← hsum]
  simpa [SYMBOLS] using h2

theorem listVal_append_singleton (ds : List Nat) :
    ∀ acc d, listVal acc (ds ++ [d]) = listVal acc ds * 10 + d := by
  induction ds with
  | nil => intro acc d; simp [listVal]
  | cons x xs ih => intro acc d; simp only [List.cons_append, listVal]; exact ih _ d

theorem le_listVal (ds : List Nat) : ∀ acc, acc ≤ listVal acc ds := by
  induction ds with
  | nil => intro acc; simp [listVal]
  | cons d t ih =>
    intro acc
    simp only [listVal]
    calc acc ≤ acc * 10 + d := by omega
      _ ≤ listVal (acc * 10 + d) t := ih _

/-- The digit list of `n` (least significant first), read back most
significant first, denotes `n`. -/
theorem listVal_decDigitsRevGo (fuel : Nat) :
    ∀ n, n ≤ fuel → listVal 0 (decDigitsRevGo fuel n).reverse = n := by
  induction fuel with
  | zero =>
    intro n h
    have : n = 0 := by omega
    subst this
    simp [decDigitsRevGo, listVal]
  | succ fuel ih =>
    intro n h
    simp only [decDigitsRevGo]
    by_cases hlt : n < 10
    · simp [hlt, listVal]
    · rw [if_neg hlt, List.reverse_cons, listVal_append_singleton,
        ih (n / 10) (by omega)]
      omega

theorem listVal_decDigitsRev (n : Nat) : listVal 0 (decDigitsRev n).reverse = n :=
  listVal_decDigitsRevGo n n le_rfl

/-! Facts about the digit characters. -/

theorem toDigit10_digitToChar (d : Nat) (h : d < 10) : toDigit10 (digitToChar d) = some d := by
  interval_cases d <;> rfl

theorem digitToChar_ne_plus (d : Nat) : digitToChar d ≠ '+' := by
  unfold digitToChar
  split_ifs <;> decide

theorem digitToChar_ne_dot (d : Nat) : digitToChar d ≠ '.' := by
  unfold digitToChar
  split_ifs <;> decide

theorem digitToChar_ne_dash (d : Nat) : digitToChar d ≠ '-' := by
  unfold digitToChar
  split_ifs <;> decide

theorem toChar_ne_dot (vd : VerificationDigit) : vd.toChar ≠ '.' := by
  cases vd <;> decide

theorem toChar_ne_dash (vd : VerificationDigit) : vd.toChar ≠ '-' := by
  cases vd <;> decide

/-! The parser reads back what the printer wrote. -/

theorem parseU32Core_map_digitToChar (ds : List Nat) :
    ∀ acc, (∀ d ∈ ds, d < 10) → listVal acc ds ≤ U32_MAX →
      parseU32Core (ds.map digitToChar) acc = .ok (listVal acc ds) := by
  induction ds with
  | nil => intro acc _ _; simp [parseU32Core, listVal]
  | cons d t ih =>
    intro acc hdig hbound
    simp only [List.map_cons, parseU32Core,
      toDigit10_digitToChar d (hdig d (List.mem_cons_self d t))]
    have hval : listVal acc (d :: t) = listVal (acc * 10 + d) t := rfl
    rw [hval] at hbound
    have hstep : acc * 10 + d ≤ listVal (acc * 10 + d) t := le_listVal t _
    rw [if_neg (by omega)]
    exact ih _ (fun x hx => hdig x (List.mem_cons_of_mem d hx)) hbound

/-- On a string of only decimal digits whose value overflows `u32`, the
digit loop fails with `PosOverflow`. -/
theorem parseU32Core_overflow (cs : List Char) :
    ∀ acc, (∀ c ∈ cs, (toDigit10 c).isSome) → acc ≤ U32_MAX →
      U32_MAX < listVal acc (cs.map fun c => (toDigit10 c).getD 0) →
      parseU32Core cs acc = .error .PosOverflow := by
  induction cs with
  | nil => intro acc _ h1 h2; simp [listVal] at h2; omega
  | cons c t ih =>
    intro acc hdig hacc hover
    have hc : (toDigit10 c).isSome := hdig c (List.mem_cons_self c t)
    obtain ⟨d, hd⟩ := Option.isSome_iff_exists.mp hc
    simp only [parseU32Core, hd]
    by_cases hcmp : U32_MAX < acc * 10 + d
    · rw [if_pos hcmp]
    · rw [if_neg hcmp]
      refine ih _ (fun x hx => hdig x (List.mem_cons_of_mem c hx)) (by omega) ?_
      simpa [listVal, hd] using hover

theorem natToChars_eq_map (n : Nat) :
    natToChars n = (decDigitsRev n).reverse.map digitToChar := by
  unfold natToChars
  rw [List.map_reverse]

theorem parseU32_natToChars (n : Nat) (h : n ≤ U32_MAX) :
    parseU32 (natToChars n) = .ok n := by
  rw [natToChars_eq_map]
  obtain ⟨d, rest, hcons⟩ : ∃ d rest, (decDigitsRev n).reverse = d :: rest := by
    rcases hrev : (decDigitsRev n).reverse with _ | ⟨d, rest⟩
    · exact absurd (by simpa using congrArg List.reverse hrev) (decDigitsRev_ne_nil n)
    · exact ⟨d, rest, rfl⟩
  have hdig : ∀ x ∈ (decDigitsRev n).reverse, x < 10 := by
    intro x hx
    exact decDigitsRev_lt_ten n x (List.mem_reverse.mp hx)
  have hval : listVal 0 ((decDigitsRev n).reverse) = n := listVal_decDigitsRev n
  rw [hcons] at hdig hval ⊢
  simp only [List.map_cons, parseU32]
  rw [if_neg (digitToChar_ne_plus d)]
  have := parseU32Core_map_digitToChar (d :: rest) 0 hdig (by omega)
  simpa [hval] using this

/-! Facts about decoration stripping. -/

/-- The characterisation of `sans` as a filter: it removes every `'.'`
and `'-'` and keeps everything else, in order. -/
theorem sans_eq_filter (s : List Char) :
    Rut.sans s = s.filter fun c => !(c == '.' || c == '-') := by
  induction s with
  | nil => rfl
  | cons c cs ih =>
    simp only [Rut.sans, List.filter_cons]
    by_cases h : c = '.' ∨ c = '-'
    · rw [if_pos h, ih]
      rcases h with h | h <;> subst h <;> rfl
    · rw [if_neg h, ih]
      push_neg at h
      have hb : (!(c == '.' || c == '-')) = true := by
        simp [h.1, h.2]
      rw [hb, if_pos rfl]

theorem sans_append (a b : List Char) : Rut.sans (a ++ b) = Rut.sans a ++ Rut.sans b := by
  simp [sans_eq_filter, List.filter_append]

theorem sans_idem (s : List Char) : Rut.sans (Rut.sans s) = Rut.sans s := by
  simp only [sans_eq_filter, List.filter_filter]
  exact List.filter_congr fun c _ => by cases h : (c == '.' || c == '-') <;> simp [h]

theorem sans_eq_self (s : List Char) (h : ∀ c ∈ s, c ≠ '.' ∧ c ≠ '-') :
    Rut.sans s = s := by
  rw [sans_eq_filter]
  exact List.filter_eq_self.mpr fun c hc => by simp [(h c hc).1, (h c hc).2]

theorem sans_natToChars (n : Nat) : Rut.sans (natToChars n) = natToChars n := by
  apply sans_eq_self
  intro c hc
  rw [natToChars_eq_map] at hc
  obtain ⟨d, _, rfl⟩ := List.mem_map.mp hc
  exact ⟨digitToChar_ne_dot d, digitToChar_ne_dash d⟩

theorem sans_dotsGroupGo (fuel : Nat) :
    ∀ s, Rut.sans (dotsGroupGo fuel s) = Rut.sans s := by
  induction fuel with
  | zero => intro s; rfl
  | succ fuel ih =>
    intro s
    simp only [dotsGroupGo]
    by_cases h : s.length ≤ 3
    · rw [if_pos h]
    · rw [if_neg h, sans_append, ih]
      have hdot : Rut.sans ('.' :: s.drop (s.length - 3)) = Rut.sans (s.drop (s.length - 3)) := by
        simp [Rut.sans]
      rw [hdot, ← sans_append, List.take_append_drop]

theorem sans_dotsGroup (s : List Char) : Rut.sans (dotsGroup s) = Rut.sans s :=
  sans_dotsGroupGo s.length s

/-! Unfolding `Rut::from_str` step by step, once the stripped input is
known to split into a body and a claimed check character. -/

theorem from_str_nan (s body : List Char) (c : Char) (e : ParseIntError)
    (h : Rut.sans s = body ++ [c]) (hp : parseU32 body = .error e) :
    Rut.from_str s = .error (.NaN e) := by
  simp only [Rut.from_str, h, List.getLast?_concat, List.dropLast_concat, hp]

theorem from_str_num_err (s body : List Char) (c : Char) (num : Nat) (e : Error)
    (h : Rut.sans s = body ++ [c]) (hp : parseU32 body = .ok num)
    (ht : Rut.tryFromNum num = .error e) :
    Rut.from_str s = .error e := by
  simp only [Rut.from_str, h, List.getLast?_concat, List.dropLast_concat, hp, ht]

theorem from_str_char_err (s body : List Char) (c : Char) (num : Nat) (want : Rut) (e : Error)
    (h : Rut.sans s = body ++ [c]) (hp : parseU32 body = .ok num)
    (ht : Rut.tryFromNum num = .ok want)
    (hc : VerificationDigit.tryFromChar c = .error e) :
    Rut.from_str s = .error e := by
  simp only [Rut.from_str, h, List.getLast?_concat, List.dropLast_concat, hp, ht, hc]

theorem from_str_agree (s body : List Char) (c : Char) (num : Nat) (want : Rut)
    (h : Rut.sans s = body ++ [c]) (hp : parseU32 body = .ok num)
    (ht : Rut.tryFromNum num = .ok want)
    (hc : VerificationDigit.tryFromChar c = .ok want.vd) :
    Rut.from_str s = .ok want := by
  simp only [Rut.from_str, h, List.getLast?_concat, List.dropLast_concat, hp, ht, hc, if_pos]

theorem from_str_mismatch (s body : List Char) (c : Char) (num : Nat) (want : Rut)
    (claimed : VerificationDigit)
    (h : Rut.sans s = body ++ [c]) (hp : parseU32 body = .ok num)
    (ht : Rut.tryFromNum num = .ok want)
    (hc : VerificationDigit.tryFromChar c = .ok claimed)
    (hne : claimed ≠ want.vd) :
    Rut.from_str s = .error (.InvalidVerificationDigit c want.vd.toChar) := by
  simp only [Rut.from_str, h, List.getLast?_concat, List.dropLast_concat, hp, ht, hc]
  rw [if_neg fun heq => hne heq.symm]

theorem tryFromChar_toChar (vd : VerificationDigit) :
    VerificationDigit.tryFromChar vd.toChar = .ok vd := by
  cases vd <;> rfl

theorem tryFromNum_error (num : Nat) (e : Error)
    (h : Rut.tryFromNum num = .error e) : e = .OutOfRange := by
  unfold Rut.tryFromNum at h
  by_cases hr : MIN_NUM ≤ num ∧ num ≤ MAX_NUM
  · rw [if_pos hr] at h
    obtain ⟨vd, hvd, -⟩ := new_ok num
    rw [hvd] at h
    cases h
  · rw [if_neg hr] at h
    cases h
    rfl

set_option maxHeartbeats 1000000 in
theorem tryFromChar_error (c : Char) (e : Error)
    (h : VerificationDigit.tryFromChar c = .error e) :
    e = .VerificationDigitOutOfBounds [c] := by
  unfold VerificationDigit.tryFromChar at h
  split_ifs at h
  all_goals cases h
  rfl

/-! Stripping a formatted `Rut` leaves the bare digits and check
character. -/

theorem sans_toChar (vd : VerificationDigit) : Rut.sans [vd.toChar] = [vd.toChar] :=
  sans_eq_self _ (by
    intro c hc
    rw [List.mem_singleton] at hc
    subst hc
    exact ⟨toChar_ne_dot vd, toChar_ne_dash vd⟩)

theorem sans_format (num : Nat) (vd : VerificationDigit) (fmt : Format) :
    Rut.sans (Rut.format ⟨num, vd⟩ fmt) = natToChars num ++ [vd.toChar] := by
  cases fmt with
  | Sans =>
    simp only [Rut.format]
    rw [sans_append, sans_natToChars, sans_toChar]
  | Dash =>
    simp only [Rut.format]
    rw [sans_append, sans_natToChars]
    have hd : Rut.sans ('-' :: [vd.toChar]) = Rut.sans [vd.toChar] := by
      simp [Rut.sans]
    rw [hd, sans_toChar]
  | Dots =>
    simp only [Rut.format]
    rw [sans_append, sans_dotsGroup, sans_natToChars]
    have hd : Rut.sans ('-' :: [vd.toChar]) = Rut.sans [vd.toChar] := by
      simp [Rut.sans]
    rw [hd, sans_toChar]

theorem tryFromNum_ok (num : Nat) (vd : VerificationDigit)
    (h1 : MIN_NUM ≤ num) (h2 : num ≤ MAX_NUM) (h3 : VerificationDigit.new num = .ok vd) :
    Rut.tryFromNum num = .ok ⟨num, vd⟩ := by
  unfold Rut.tryFromNum
  rw [if_pos ⟨h1, h2⟩, h3]

/-- Formatting a legal `Rut` in any of the three notations and parsing it
back returns the same `Rut`. -/
theorem from_str_format (num : Nat) (vd : VerificationDigit)
    (h1 : MIN_NUM ≤ num) (h2 : num ≤ MAX_NUM)
    (h3 : VerificationDigit.new num = .ok vd) (fmt : Format) :
    Rut.from_str (Rut.format ⟨num, vd⟩ fmt) = .ok ⟨num, vd⟩ := by
  have hle : num ≤ U32_MAX := by
    simp only [MAX_NUM] at h2
    simp only [U32_MAX]
    omega
  exact from_str_agree _ _ _ num ⟨num, vd⟩ (sans_format num vd fmt)
    (parseU32_natToChars num hle) (tryFromNum_ok num vd h1 h2 h3) (tryFromChar_toChar vd)

/-! The claims. -/

/-- C1: for every (positive) body number, the check digit computed by
`VerificationDigit::new` equals the spec's reference definition: reverse
the base-10 digits, weight digit `i` by `WEIGHTS[i mod 6]` with
`WEIGHTS = [2,3,4,5,6,7]`, sum, set `digit = 11 - (sum mod 11)`, and map
1..9 to the decimal symbols, 10 to K, 11 to 0. -/
theorem claim_C1_checksum_matches_reference (num : Nat) (h : 0 < num) :
    ∃ vd, VerificationDigit.new num = .ok vd ∧ specCheckDigit num = some vd :=
  new_eq_specCheckDigit num h

theorem claim_C1_witness :
    0 < 1111111 ∧
      ∃ vd, VerificationDigit.new 1111111 = .ok vd ∧ specCheckDigit 1111111 = some vd :=
  ⟨by decide, claim_C1_checksum_matches_reference 1111111 (by decide)⟩

/-- C2: for every legal `Rut` (body in `[1_000_000, 99_999_999]` paired
with its computed check digit), parsing the string produced by formatting
it succeeds and returns the same `Rut`, in each of the three notations
Sans, Dash and Dots. -/
theorem claim_C2_round_trip (num : Nat) (vd : VerificationDigit)
    (h1 : MIN_NUM ≤ num) (h2 : num ≤ MAX_NUM)
    (h3 : VerificationDigit.new num = .ok vd) :
    Rut.from_str (Rut.format ⟨num, vd⟩ .Sans) = .ok ⟨num, vd⟩ ∧
    Rut.from_str (Rut.format ⟨num, vd⟩ .Dash) = .ok ⟨num, vd⟩ ∧
    Rut.from_str (Rut.format ⟨num, vd⟩ .Dots) = .ok ⟨num, vd⟩ :=
  ⟨from_str_format num vd h1 h2 h3 .Sans,
   from_str_format num vd h1 h2 h3 .Dash,
   from_str_format num vd h1 h2 h3 .Dots⟩

theorem claim_C2_witness :
    MIN_NUM ≤ 17951585 ∧ 17951585 ≤ MAX_NUM ∧
      VerificationDigit.new 17951585 = .ok .Seven ∧
      Rut.from_str (Rut.format ⟨17951585, .Seven⟩ .Sans) = .ok ⟨17951585, .Seven⟩ ∧
      Rut.from_str (Rut.format ⟨17951585, .Seven⟩ .Dash) = .ok ⟨17951585, .Seven⟩ ∧
      Rut.from_str (Rut.format ⟨17951585, .Seven⟩ .Dots) = .ok ⟨17951585, .Seven⟩ :=
  ⟨by decide, by decide, by decide,
    claim_C2_round_trip 17951585 .Seven (by decide) (by decide) (by decide)⟩

/-- C3 counterexample: the claim that `random` only returns bodies in the
legal range, and that a sub-range admitting out-of-domain values fails
with `OutOfRange`, is false: the hasher draw `0` produces the `Rut` with
body `0` (below the legal minimum), and a sub-range draw of `0` likewise
returns `Ok`, never `OutOfRange`. -/
theorem claim_C3_counterexample :
    Rut.random 0 = .ok ⟨0, .Zero⟩ ∧ (0 : Nat) < MIN_NUM ∧
    Rut.random_in_range 0 = .ok ⟨0, .Zero⟩ ∧
    Rut.random_in_range 0 ≠ .error .OutOfRange := by
  refine ⟨by decide, by decide, by decide, ?_⟩
  decide

/-- C3 amended: `random` returns the truncated hasher value modulo
`MAX_NUM` — a body in `[0, 99_999_998]`, possibly below the legal minimum
— paired with its computed check digit; `random_in_range` returns the
drawn value (which `gen_range` keeps inside the supplied closed range)
with its computed check digit, and performs no range validation, so it
never fails with `OutOfRange`. -/
theorem claim_C3_amended :
    (∀ hash : Nat, ∃ vd,
      Rut.random hash = .ok ⟨hash % 2 ^ 32 % MAX_NUM, vd⟩ ∧
      VerificationDigit.new (hash % 2 ^ 32 % MAX_NUM) = .ok vd ∧
      hash % 2 ^ 32 % MAX_NUM < MAX_NUM) ∧
    (∀ lo hi num : Nat, lo ≤ num → num ≤ hi →
      ∃ vd, Rut.random_in_range num = .ok ⟨num, vd⟩ ∧
        VerificationDigit.new num = .ok vd ∧ lo ≤ num ∧ num ≤ hi) := by
  constructor
  · intro hash
    obtain ⟨vd, hvd, -⟩ := new_ok (hash % 2 ^ 32 % MAX_NUM)
    refine ⟨vd, ?_, hvd, ?_⟩
    · simp only [Rut.random, hvd]
    · exact Nat.mod_lt _ (by norm_num [MAX_NUM])
  · intro lo hi num h1 h2
    obtain ⟨vd, hvd, -⟩ := new_ok num
    exact ⟨vd, by simp only [Rut.random_in_range, hvd], hvd, h1, h2⟩

theorem claim_C3_witness :
    ∃ vd, Rut.random_in_range 12345678 = .ok ⟨12345678, vd⟩ ∧
      VerificationDigit.new 12345678 = .ok vd ∧
      10000000 ≤ 12345678 ∧ 12345678 ≤ 15000000 :=
  claim_C3_amended.2 10000000 15000000 12345678 (by decide) (by decide)

/-- C4: `TryFrom<Num> for Rut` succeeds exactly on bodies in the
inclusive range `[1_000_000, 99_999_999]` and fails with `OutOfRange`
otherwise; both boundary bodies succeed with check digit `9`, matching
the module constants `MIN` and `MAX`, while `999_999` and `100_000_000`
fail with `OutOfRange`. -/
theorem claim_C4_range_boundary :
    (∀ num : Nat, MIN_NUM ≤ num → num ≤ MAX_NUM →
      ∃ vd, Rut.tryFromNum num = .ok ⟨num, vd⟩) ∧
    (∀ num : Nat, ¬(MIN_NUM ≤ num ∧ num ≤ MAX_NUM) →
      Rut.tryFromNum num = .error .OutOfRange) ∧
    Rut.tryFromNum 1000000 = .ok MIN ∧
    Rut.tryFromNum 99999999 = .ok MAX ∧
    MIN = ⟨1000000, .Nine⟩ ∧ MAX = ⟨99999999, .Nine⟩ ∧
    Rut.tryFromNum 999999 = .error .OutOfRange ∧
    Rut.tryFromNum 100000000 = .error .OutOfRange := by
  refine ⟨?_, ?_, by decide, by decide, by decide, by decide, by decide, by decide⟩
  · intro num h1 h2
    obtain ⟨vd, hvd, -⟩ := new_ok num
    exact ⟨vd, tryFromNum_ok num vd h1 h2 hvd⟩
  · intro num h
    unfold Rut.tryFromNum
    rw [if_neg h]

theorem claim_C4_witness :
    ∃ vd, Rut.tryFromNum 2000000 = .ok ⟨2000000, vd⟩ :=
  claim_C4_range_boundary.1 2000000 (by decide) (by decide)

/-- C5: whenever the stripped input splits into a body that parses as an
in-range number and a trailing legal check character, `from_str` fails
with `InvalidVerificationDigit{have, want}` exactly when the claimed
digit differs from the computed one (`have` is the claimed character,
`want` the canonical computed character) and returns the canonical `Rut`
when they agree; in particular `"1.111.111-1"` fails with
`have = '1'`, `want = '4'`. -/
theorem claim_C5_mismatch_detection :
    (∀ (s body : List Char) (c : Char) (num : Nat) (want : Rut)
      (claimed : VerificationDigit),
      Rut.sans s = body ++ [c] →
      parseU32 body = .ok num →
      Rut.tryFromNum num = .ok want →
      VerificationDigit.tryFromChar c = .ok claimed →
      (claimed ≠ want.vd →
        Rut.from_str s = .error (.InvalidVerificationDigit c want.vd.toChar)) ∧
      (claimed = want.vd → Rut.from_str s = .ok want)) ∧
    Rut.from_str "1.111.111-1".toList = .error (.InvalidVerificationDigit '1' '4') := by
  constructor
  · intro s body c num want claimed h hp ht hc
    constructor
    · intro hne
      exact from_str_mismatch s body c num want claimed h hp ht hc hne
    · intro heq
      exact from_str_agree s body c num want h hp ht (heq ▸ hc)
  · decide

theorem claim_C5_witness :
    Rut.from_str ['1', '1', '1', '1', '1', '1', '1', '1'] =
      .error (.InvalidVerificationDigit '1' '4') :=
  (claim_C5_mismatch_detection.1 ['1', '1', '1', '1', '1', '1', '1', '1']
    ['1', '1', '1', '1', '1', '1', '1'] '1' 1111111 ⟨1111111, .Four⟩ .One
    (by decide) (by decide) (by decide) (by decide)).1 (by decide)

/-- C6: `Rut::sans` removes every `'.'` and `'-'` and changes nothing
else (it is exactly the filter keeping all other characters), parsing is
insensitive to decoration (`from_str s = from_str (sans s)` for every
input), and the three spellings of `17951585-7` parse to the same
`Rut`. -/
theorem claim_C6_decoration_insensitivity :
    (∀ s : List Char, Rut.sans s = s.filter fun c => !(c == '.' || c == '-')) ∧
    (∀ s : List Char, Rut.from_str s = Rut.from_str (Rut.sans s)) ∧
    Rut.from_str "17.951.585-7".toList = .ok ⟨17951585, .Seven⟩ ∧
    Rut.from_str "17951585-7".toList = .ok ⟨17951585, .Seven⟩ ∧
    Rut.from_str "179515857".toList = .ok ⟨17951585, .Seven⟩ := by
  refine ⟨sans_eq_filter, ?_, by decide, by decide, by decide⟩
  intro s
  simp only [Rut.from_str, sans_idem]

theorem claim_C6_witness :
    Rut.from_str "1.111-.111-1".toList = Rut.from_str (Rut.sans "1.111-.111-1".toList) :=
  claim_C6_decoration_insensitivity.2.1 "1.111-.111-1".toList

/-- C7: `from_str` fails with `EmptyString` if and only if the input is
empty after stripping every `'.'` and `'-'`; in particular parsing the
empty string fails with `EmptyString`, and inputs that are empty after
stripping receive no other error. -/
theorem claim_C7_empty_input :
    (∀ s : List Char, Rut.from_str s = .error .EmptyString ↔ Rut.sans s = []) ∧
    Rut.from_str "".toList = .error .EmptyString := by
  refine ⟨?_, by decide⟩
  intro s
  constructor
  · intro h
    by_contra hne
    obtain ⟨body, c, hsplit⟩ : ∃ body c, Rut.sans s = body ++ [c] :=
      ⟨(Rut.sans s).dropLast, (Rut.sans s).getLast hne,
        (List.dropLast_append_getLast hne).symm⟩
    rcases hp : parseU32 body with e | num
    · rw [from_str_nan s body c e hsplit hp] at h
      cases h
    · rcases ht : Rut.tryFromNum num with e | want
      · rw [tryFromNum_error num e ht] at ht
        rw [from_str_num_err s body c num _ hsplit hp ht] at h
        cases h
      · rcases hc : VerificationDigit.tryFromChar c with e | claimed
        · rw [tryFromChar_error c e hc] at hc
          rw [from_str_char_err s body c num want _ hsplit hp ht hc] at h
          cases h
        · by_cases heq : claimed = want.vd
          · rw [from_str_agree s body c num want hsplit hp ht (heq ▸ hc)] at h
            cases h
          · rw [from_str_mismatch s body c num want claimed hsplit hp ht hc heq] at h
            cases h
  · intro h
    simp only [Rut.from_str, h, List.getLast?_nil]

theorem claim_C7_witness :
    Rut.from_str ['.', '-', '.'] = .error .EmptyString :=
  (claim_C7_empty_input.1 ['.', '-', '.']).mpr (by decide)

/-- C8: `TryFrom<char>` for the check digit succeeds exactly on
`'0'..'9'`, `'K'` and lowercase `'k'` (the latter mapping to `K`) and
fails with `VerificationDigitOutOfBounds` on every other character;
`toChar` always renders the canonical uppercase form, converting back
recovers the digit, and the two spellings of `15441715-k` parse to equal
`Rut`s with check digit `K`. -/
theorem claim_C8_check_char_conversions :
    (∀ vd : VerificationDigit, VerificationDigit.tryFromChar vd.toChar = .ok vd) ∧
    (∀ vd : VerificationDigit,
      vd.toChar ∈ ['0', '1', '2', '3', '4', '5', '6', '7', '8', '9', 'K']) ∧
    VerificationDigit.tryFromChar 'k' = .ok .K ∧
    (∀ c : Char, c ≠ '0' → c ≠ '1' → c ≠ '2' → c ≠ '3' → c ≠ '4' → c ≠ '5' →
      c ≠ '6' → c ≠ '7' → c ≠ '8' → c ≠ '9' → c ≠ 'K' → c ≠ 'k' →
      VerificationDigit.tryFromChar c = .error (.VerificationDigitOutOfBounds [c])) ∧
    Rut.from_str "15441715-k".toList = .ok ⟨15441715, .K⟩ ∧
    Rut.from_str "15441715-K".toList = .ok ⟨15441715, .K⟩ := by
  refine ⟨tryFromChar_toChar, ?_, by decide, ?_, by decide, by decide⟩
  · intro vd; cases vd <;> decide
  · intro c h0 h1 h2 h3 h4 h5 h6 h7 h8 h9 hK hk
    unfold VerificationDigit.tryFromChar
    split_ifs <;> simp_all

theorem claim_C8_witness :
    VerificationDigit.tryFromChar 'x' = .error (.VerificationDigitOutOfBounds ['x']) :=
  claim_C8_check_char_conversions.2.2.2.1 'x' (by decide) (by decide) (by decide)
    (by decide) (by decide) (by decide) (by decide) (by decide) (by decide)
    (by decide) (by decide) (by decide)

/-- C9: the defensive `VerificationDigitOutOfBounds` branch of
`VerificationDigit::new` is unreachable for every legal body: the
intermediate `digit = 11 - (sum - 11 * (sum / 11))` always lies in
`1..=11`, which `from_u32` accepts, so the computation always
succeeds. -/
theorem claim_C9_checksum_total (num : Nat) (_h1 : MIN_NUM ≤ num) (_h2 : num ≤ MAX_NUM) :
    1 ≤ SYMBOLS - (weightedSumAux (decDigitsRev num) 0 0 -
        SYMBOLS * (weightedSumAux (decDigitsRev num) 0 0 / SYMBOLS)) ∧
    SYMBOLS - (weightedSumAux (decDigitsRev num) 0 0 -
        SYMBOLS * (weightedSumAux (decDigitsRev num) 0 0 / SYMBOLS)) ≤ 11 ∧
    ∃ vd, VerificationDigit.new num = .ok vd := by
  obtain ⟨vd, hvd, -⟩ := new_ok num
  have hdm := Nat.div_add_mod (weightedSumAux (decDigitsRev num) 0 0) SYMBOLS
  have hlt : weightedSumAux (decDigitsRev num) 0 0 % SYMBOLS < 11 :=
    Nat.mod_lt _ (by norm_num [SYMBOLS])
  refine ⟨?_, ?_, vd, hvd⟩ <;> simp only [SYMBOLS] at hdm hlt ⊢ <;> omega

theorem claim_C9_witness :
    ∃ vd, VerificationDigit.new 1000000 = .ok vd :=
  (claim_C9_checksum_total 1000000 (by decide) (by decide)).2.2

/-- C10: any input whose stripped body consists only of decimal digits
but denotes a value above `u32::MAX` makes `from_str` fail with
`NaN PosOverflow` — the overflowing integer parse — rather than
`OutOfRange`, because the body is parsed into a 32-bit unsigned integer
before the range check runs; in particular `"99999999999"`. -/
theorem claim_C10_overflow_is_nan :
    (∀ (s body : List Char) (c : Char),
      Rut.sans s = body ++ [c] →
      (∀ ch ∈ body, (toDigit10 ch).isSome) →
      U32_MAX < listVal 0 (body.map fun ch => (toDigit10 ch).getD 0) →
      Rut.from_str s = .error (.NaN .PosOverflow)) ∧
    Rut.from_str "99999999999".toList = .error (.NaN .PosOverflow) := by
  constructor
  · intro s body c h hdig hover
    refine from_str_nan s body c .PosOverflow h ?_
    rcases body with _ | ⟨b, bs⟩
    · simp [listVal, U32_MAX] at hover
    · simp only [parseU32]
      have hbplus : ¬b = '+' := by
        have hb := hdig b (List.mem_cons_self b bs)
        intro heq
        rw [heq] at hb
        exact absurd hb (by decide)
      rw [if_neg hbplus]
      exact parseU32Core_overflow (b :: bs) 0 hdig (Nat.zero_le _) hover
  · decide

theorem claim_C10_witness :
    Rut.from_str ['9', '9', '9', '9', '9', '9', '9', '9', '9', '9', '9', '1'] =
      .error (.NaN .PosOverflow) :=
  claim_C10_overflow_is_nan.1 ['9', '9', '9', '9', '9', '9', '9', '9', '9', '9', '9', '1']
    ['9', '9', '9', '9', '9', '9', '9', '9', '9', '9', '9'] '1'
    (by decide) (by decide) (by decide)

end Rutcl
